import Mathlib

/-!
Shallow embedding of the CSV filtering pipeline of `src/Python/CSVNoNinja.py`
(function `main`, the data transformation of lines 192-200), together with a
model of the surrounding error handling (lines 184-188 and the column accesses
that fail when a required column is absent).

A cell value is `Option String`: `none` models a missing value (pandas `NaN`).
A `Record` is one row, carrying the three named columns and the full raw row
(`rest`) so that extra columns are preserved verbatim and two rows that differ
only outside the key columns stay distinguishable.

pandas semantics modelled:
- `Series.str.contains("NinjaRMMAgent", na=False)`: the pattern has no regex
  metacharacters, so it is a case-sensitive substring test; a missing `Name`
  yields `False` (the `na=False` argument).
- `DataFrame.drop_duplicates` keeps the first occurrence (`keep='first'`) and
  treats `NaN` key cells as equal to each other.
- `DataFrame.merge(..., on=['IP','HostName'], how='left', indicator=True)`
  followed by keeping `_merge == 'left_only'`: since the right table is
  deduplicated, its keys are unique, so the anti-join is exactly an
  order-preserving filter of the left rows whose key pair does not occur in
  the right table; `NaN` join keys match each other in a pandas merge.
-/

namespace CSVNoNinja

/-- A cell value; `none` is a missing value (pandas `NaN`). -/
abbrev Val := Option String

/-- One row of the table: the three columns the pipeline reads, plus the raw
row so that arbitrary additional columns are preserved verbatim. -/
structure Record where
  name : Val
  ip : Val
  hostName : Val
  rest : List Val
deriving Repr, DecidableEq

/-- The marker substring of line 192. -/
def marker : String := "NinjaRMMAgent"

/-- `leadsWith pat s`: `s` starts with `pat`. -/
def leadsWith : List Char → List Char → Bool
  | [], _ => true
  | _ :: _, [] => false
  | p :: ps, c :: cs => p == c && leadsWith ps cs

/-- `occursIn pat s`: `pat` occurs as a contiguous run of `s` — Python's
substring operator `pat in s`. -/
def occursIn (pat : List Char) : List Char → Bool
  | [] => pat.isEmpty
  | c :: cs => leadsWith pat (c :: cs) || occursIn pat cs

/-- The case-sensitive substring test `"NinjaRMMAgent" in s` that
`str.contains` performs here (the pattern has no regex metacharacters). -/
def strContainsMarker (s : String) : Bool := occursIn marker.data s.data

/-- Line 192: `df['Name'].str.contains("NinjaRMMAgent", na=False)` at one row.
A missing `Name` gives `false` because of `na=False`. -/
def ninjaMask (r : Record) : Bool :=
  match r.name with
  | none => false
  | some s => strContainsMarker s

/-- The (IP, HostName) key pair of a row. -/
def key (r : Record) : Val × Val := (r.ip, r.hostName)

/-- First-occurrence deduplication by a key function, with an accumulator of
keys already emitted: the semantics of `drop_duplicates(keep='first')`.
`NaN` keys compare equal because `Val` equality identifies `none` with
`none`. -/
def dropDupsBy {α β : Type} [DecidableEq β] (f : α → β) : List α → List β → List α
  | [], _ => []
  | x :: xs, seen =>
    if f x ∈ seen then dropDupsBy f xs seen
    else x :: dropDupsBy f xs (f x :: seen)

/-- Line 193: `df.loc[ninja_mask, ['IP', 'HostName']].drop_duplicates()` —
the distinct (IP, HostName) pairs of the rows matched by the mask, in order
of first occurrence. -/
def hostsWithNinja (df : List Record) : List (Val × Val) :=
  dropDupsBy id ((df.filter ninjaMask).map key) []

/-- Lines 196-197: the left merge with `indicator=True` followed by keeping
the `left_only` rows. The right table `hostsWithNinja df` has unique keys, so
this is the order-preserving filter of the rows whose key pair is absent from
it. -/
def dfNoNinja (df : List Record) : List Record :=
  df.filter (fun r => !(decide (key r ∈ hostsWithNinja df)))

/-- Line 200: `df_no_ninja.drop_duplicates(subset=['IP', 'HostName'])`, the
whole pipeline's output (`df_no_ninja_unique`). -/
def filterPipeline (df : List Record) : List Record :=
  dropDupsBy key (dfNoNinja df) []

/-! ### Raw tables and the error-handling model

`RawTable` is the frame as `pd.read_csv` returns it: a header of column names
and rows of cells. Accessing a column that is not in the header raises a
`KeyError` in pandas (the spec's `SchemaError`); a failure of `read_csv`
itself (line 185, e.g. an undecodable byte under cp1252) is caught at lines
186-188 (the spec's `ParseError`) and the process exits with status 1 after
printing the message, writing nothing. -/

structure RawTable where
  header : List String
  rows : List (List Val)
deriving Repr, DecidableEq

inductive PipelineError where
  | parseError (msg : String)
  | schemaError (col : String)
deriving Repr, DecidableEq

/-- Build the `Record` of one raw row given the positions of the three
required columns; the raw row itself is kept as `rest`. -/
def recordOfRow (ni ii hi : Nat) (row : List Val) : Record :=
  { name := row.getD ni none
    ip := row.getD ii none
    hostName := row.getD hi none
    rest := row }

/-- Lines 192-200 on a raw frame: the column accesses `df['Name']` (192) and
`['IP', 'HostName']` (193/196) raise a `KeyError` when the column is absent
from the header — modelled as `schemaError`, in the order the code reads the
columns — and otherwise the pure pipeline runs on the decoded records. -/
def runPipeline (t : RawTable) : Except PipelineError (List Record) :=
  match t.header.indexOf? "Name" with
  | none => .error (.schemaError "Name")
  | some ni =>
    match t.header.indexOf? "IP" with
    | none => .error (.schemaError "IP")
    | some ii =>
      match t.header.indexOf? "HostName" with
      | none => .error (.schemaError "HostName")
      | some hi => .ok (filterPipeline (t.rows.map (recordOfRow ni ii hi)))

/-- The observable outcome of one run of `main`: the process exit status,
the table written to the output file (`none` when nothing was written), and
the message printed. -/
structure RunResult where
  exitCode : Nat
  written : Option (List Record)
  message : String
deriving Repr, DecidableEq

/-- The text a `PipelineError` surfaces as: the exception message `read_csv`
raised, or the `KeyError` text of a missing column. -/
def errText : PipelineError → String
  | .parseError m => m
  | .schemaError c => "KeyError: " ++ c

/-- `main` from line 184 on, as a function of the result of `read_csv`
(a table, or the exception it raised — an undecodable cp1252 byte surfaces
as `parseError`): a read failure is caught (lines 186-188), its message is
printed and the process exits with status 1 before any output exists; a
missing required column raises downstream (lines 192/193/196) and the
uncaught exception ends the interpreter with status 1, nothing written;
otherwise the filtered table is written in full at line 221. -/
def mainModel (readResult : Except PipelineError RawTable) : RunResult :=
  match readResult with
  | .error e => { exitCode := 1, written := none
                  message := "Error reading CSV:\n" ++ errText e }
  | .ok t =>
    match runPipeline t with
    | .error e => { exitCode := 1, written := none
                    message := "Traceback: " ++ errText e }
    | .ok out => { exitCode := 0, written := some out
                   message := "Filtered CSV saved" }

/-! ### Lemmas about first-occurrence deduplication -/

theorem dropDupsBy_sublist {α β : Type} [DecidableEq β] (f : α → β) :
    ∀ (l : List α) (seen : List β), List.Sublist (dropDupsBy f l seen) l := by
  intro l
  induction l with
  | nil => intro seen; simp [dropDupsBy]
  | cons x xs ih =>
    intro seen
    simp only [dropDupsBy]
    by_cases h : f x ∈ seen
    · simp only [h, if_pos]
      exact (ih seen).cons x
    · simp only [h, if_neg, not_false_iff]
      exact (ih (f x :: seen)).cons₂ x

theorem mem_dropDupsBy_not_seen {α β : Type} [DecidableEq β] {f : α → β} :
    ∀ {l : List α} {seen : List β} {x : α},
      x ∈ dropDupsBy f l seen → f x ∉ seen := by
  intro l
  induction l with
  | nil => intro seen x hx; simp [dropDupsBy] at hx
  | cons y ys ih =>
    intro seen x hx
    simp only [dropDupsBy] at hx
    by_cases h : f y ∈ seen
    · rw [if_pos h] at hx
      exact ih hx
    · rw [if_neg h] at hx
      rcases List.mem_cons.mp hx with rfl | hx
      · exact h
      · intro hseen
        exact ih hx (List.mem_cons_of_mem _ hseen)

theorem nodup_map_dropDupsBy {α β : Type} [DecidableEq β] (f : α → β) :
    ∀ (l : List α) (seen : List β), ((dropDupsBy f l seen).map f).Nodup := by
  intro l
  induction l with
  | nil => intro seen; simp [dropDupsBy]
  | cons y ys ih =>
    intro seen
    simp only [dropDupsBy]
    by_cases h : f y ∈ seen
    · rw [if_pos h]; exact ih seen
    · rw [if_neg h]
      simp only [List.map_cons, List.nodup_cons]
      refine ⟨?_, ih (f y :: seen)⟩
      intro hmem
      rcases List.mem_map.mp hmem with ⟨x, hx, hfx⟩
      exact mem_dropDupsBy_not_seen hx (hfx ▸ List.mem_cons_self _ _)

theorem find?_dropDupsBy {α β : Type} [DecidableEq β] {f : α → β} :
    ∀ {l : List α} {seen : List β} {x : α},
      x ∈ dropDupsBy f l seen →
      l.find? (fun y => decide (f y = f x)) = some x := by
  intro l
  induction l with
  | nil => intro seen x hx; simp [dropDupsBy] at hx
  | cons y ys ih =>
    intro seen x hx
    simp only [dropDupsBy] at hx
    by_cases h : f y ∈ seen
    · rw [if_pos h] at hx
      have hne : f y ≠ f x := fun he => mem_dropDupsBy_not_seen hx (he ▸ h)
      rw [List.find?_cons_of_neg _ (by simpa using hne)]
      exact ih hx
    · rw [if_neg h] at hx
      rcases List.mem_cons.mp hx with rfl | hx
      · exact List.find?_cons_of_pos _ (by simp)
      · have hxs : f x ∉ (f y :: seen) := mem_dropDupsBy_not_seen hx
        have hne : f y ≠ f x := fun he =>
          hxs (he ▸ List.mem_cons_self _ _)
        rw [List.find?_cons_of_neg _ (by simpa using hne)]
        exact ih hx

theorem exists_mem_dropDupsBy {α β : Type} [DecidableEq β] {f : α → β} :
    ∀ {l : List α} {seen : List β} {y : α},
      y ∈ l → f y ∉ seen → ∃ x, x ∈ dropDupsBy f l seen ∧ f x = f y := by
  intro l
  induction l with
  | nil => intro seen y hy; simp at hy
  | cons z zs ih =>
    intro seen y hy hseen
    simp only [dropDupsBy]
    by_cases h : f z ∈ seen
    · rw [if_pos h]
      rcases List.mem_cons.mp hy with rfl | hy
      · exact absurd h hseen
      · exact ih hy hseen
    · rw [if_neg h]
      by_cases hzy : f y = f z
      · exact ⟨z, List.mem_cons_self _ _, hzy.symm⟩
      · rcases List.mem_cons.mp hy with rfl | hy
        · exact absurd rfl hzy
        · have hy' : f y ∉ (f z :: seen) := by
            intro hmem
            rcases List.mem_cons.mp hmem with he | he
            · exact hzy he
            · exact hseen he
          rcases ih hy hy' with ⟨x, hx, hfx⟩
          exact ⟨x, List.mem_cons_of_mem _ hx, hfx⟩

theorem dropDupsBy_eq_self {α β : Type} [DecidableEq β] {f : α → β} :
    ∀ {l : List α} {seen : List β}, (l.map f).Nodup →
      (∀ x ∈ l, f x ∉ seen) → dropDupsBy f l seen = l := by
  intro l
  induction l with
  | nil => intro seen _ _; simp [dropDupsBy]
  | cons y ys ih =>
    intro seen hnd hdis
    simp only [dropDupsBy]
    rw [if_neg (hdis y (List.mem_cons_self _ _))]
    simp only [List.map_cons, List.nodup_cons] at hnd
    congr 1
    refine ih hnd.2 ?_
    intro x hx hmem
    rcases List.mem_cons.mp hmem with he | he
    · exact hnd.1 (he ▸ List.mem_map_of_mem f hx)
    · exact hdis x (List.mem_cons_of_mem _ hx) he

/-! ### Lemmas about the pipeline -/

theorem mem_hostsWithNinja {df : List Record} {k : Val × Val} :
    k ∈ hostsWithNinja df ↔ ∃ r, r ∈ df ∧ ninjaMask r = true ∧ key r = k := by
  constructor
  · intro hk
    have hmem : k ∈ (df.filter ninjaMask).map key :=
      (dropDupsBy_sublist id ((df.filter ninjaMask).map key) []).subset hk
    rcases List.mem_map.mp hmem with ⟨r, hr, hkey⟩
    rcases List.mem_filter.mp hr with ⟨hrdf, hmask⟩
    exact ⟨r, hrdf, hmask, hkey⟩
  · rintro ⟨r, hrdf, hmask, rfl⟩
    have hmem : key r ∈ (df.filter ninjaMask).map key :=
      List.mem_map_of_mem key (List.mem_filter.mpr ⟨hrdf, hmask⟩)
    rcases @exists_mem_dropDupsBy _ _ _ id _ [] _ hmem (List.not_mem_nil _)
      with ⟨x, hx, hfx⟩
    simp only [id_eq] at hfx
    exact hfx ▸ hx

theorem mem_dfNoNinja {df : List Record} {r : Record} :
    r ∈ dfNoNinja df ↔ r ∈ df ∧ key r ∉ hostsWithNinja df := by
  simp [dfNoNinja, List.mem_filter]

theorem filterPipeline_sublist_dfNoNinja (df : List Record) :
    List.Sublist (filterPipeline df) (dfNoNinja df) :=
  dropDupsBy_sublist key (dfNoNinja df) []

theorem dfNoNinja_sublist (df : List Record) :
    List.Sublist (dfNoNinja df) df :=
  List.filter_sublist df

theorem mem_of_mem_filterPipeline {df : List Record} {r : Record}
    (h : r ∈ filterPipeline df) : r ∈ df ∧ key r ∉ hostsWithNinja df :=
  mem_dfNoNinja.mp ((filterPipeline_sublist_dfNoNinja df).subset h)

/-! ### Concrete rows used in counterexamples, scenarios and witnesses -/

/-- Row 1 of the spec's scenario table. -/
def t1 : Record := ⟨some "NinjaRMMAgent.exe", some "10.0.0.1", some "A", []⟩

/-- Row 2 of the spec's scenario table. -/
def t2 : Record := ⟨some "chrome.exe", some "10.0.0.1", some "A", []⟩

/-- Row 3 of the spec's scenario table. -/
def t3 : Record := ⟨some "chrome.exe", some "10.0.0.2", some "B", []⟩

/-- A marker-free row. -/
def rA : Record := ⟨some "alpha.exe", some "10.0.0.1", some "A", []⟩

/-- A second marker-free row on the same host as `rA` but with a different
`Name`. -/
def rB : Record := ⟨some "beta.exe", some "10.0.0.1", some "A", []⟩

/-! ### The claims -/

/-- C5: on the spec's concrete three-row scenario table, the pipeline's
output is exactly the single-row table containing the chrome row of host
(10.0.0.2, B). -/
theorem scenario_three_rows : filterPipeline [t1, t2, t3] = [t3] := by decide

/-- C2: `hostsWithNinja` (the ExclusionSet) holds exactly the distinct
(IP, HostName) pairs of rows whose `Name` is present and contains the marker
substring, matched by the case-sensitive `strContainsMarker`; it is
duplicate-free; and a row with a missing `Name` never matches the mask, so it
never contributes a pair. -/
theorem exclusionSet_characterization :
    ∀ (df : List Record) (k : Val × Val),
      (k ∈ hostsWithNinja df ↔
        ∃ r, r ∈ df ∧ (∃ s, r.name = some s ∧ strContainsMarker s = true) ∧
          key r = k) ∧
      (hostsWithNinja df).Nodup ∧
      (∀ r : Record, r.name = none → ninjaMask r = false) := by
  intro df k
  refine ⟨?_, ?_, ?_⟩
  · rw [mem_hostsWithNinja]
    constructor
    · rintro ⟨r, hrdf, hmask, hkey⟩
      refine ⟨r, hrdf, ?_, hkey⟩
      cases hname : r.name with
      | none => rw [ninjaMask, hname] at hmask; exact absurd hmask (by simp)
      | some s => exact ⟨s, rfl, by rwa [ninjaMask, hname] at hmask⟩
    · rintro ⟨r, hrdf, ⟨s, hname, hs⟩, hkey⟩
      exact ⟨r, hrdf, by rw [ninjaMask, hname]; exact hs, hkey⟩
  · have h := nodup_map_dropDupsBy id ((df.filter ninjaMask).map key) []
    rwa [List.map_id] at h
  · intro r hname
    rw [ninjaMask, hname]

/-- C1 counterexample: the record-level "if" direction fails. In the
two-row table `[rA, rB]` no row carries the marker, so the ExclusionSet is
empty and `rB`'s key is outside it, yet `rB` is not in the output: the
deduplication kept only `rA`, the first row of the shared host. -/
theorem output_iff_counterexample :
    ¬ (rB ∈ filterPipeline [rA, rB] ↔ key rB ∉ hostsWithNinja [rA, rB]) := by
  decide

/-- C1 amended: every output Record is an input Record whose (IP, HostName)
pair is outside the ExclusionSet, and at the level of key pairs the
equivalence does hold: a pair occurs in the output iff it occurs in the input
and is not in the ExclusionSet. (The record-level "if" direction of the
original claim fails because deduplication keeps only one row per pair.) -/
theorem output_iff_exclusion_amended :
    ∀ (df : List Record) (k : Val × Val),
      (k ∈ (filterPipeline df).map key ↔
        k ∈ df.map key ∧ k ∉ hostsWithNinja df) ∧
      (∀ r ∈ filterPipeline df, r ∈ df ∧ key r ∉ hostsWithNinja df) := by
  intro df k
  constructor
  · constructor
    · intro hk
      rcases List.mem_map.mp hk with ⟨r, hr, rfl⟩
      rcases mem_of_mem_filterPipeline hr with ⟨hrdf, hkey⟩
      exact ⟨List.mem_map_of_mem key hrdf, hkey⟩
    · rintro ⟨hkdf, hkex⟩
      rcases List.mem_map.mp hkdf with ⟨r, hrdf, rfl⟩
      have hr : r ∈ dfNoNinja df := mem_dfNoNinja.mpr ⟨hrdf, hkex⟩
      rcases @exists_mem_dropDupsBy _ _ _ key _ [] _ hr (List.not_mem_nil _)
        with ⟨x, hx, hfx⟩
      exact List.mem_map.mpr ⟨x, hx, hfx⟩
  · intro r hr
    exact mem_of_mem_filterPipeline hr

/-- C3: the output has no two rows with the same (IP, HostName) pair, the
anti-joined sequence `dfNoNinja` preserves the input order (it is a sublist
of the input), and each output row is the first row of `dfNoNinja` — hence
the first retained row in original input order — bearing its key pair:
`drop_duplicates` keeps first occurrences. -/
theorem output_unique_first_wins :
    ∀ df : List Record,
      ((filterPipeline df).map key).Nodup ∧
      List.Sublist (dfNoNinja df) df ∧
      (∀ r ∈ filterPipeline df,
        (dfNoNinja df).find? (fun y => decide (key y = key r)) = some r) := by
  intro df
  refine ⟨nodup_map_dropDupsBy key (dfNoNinja df) [], dfNoNinja_sublist df, ?_⟩
  intro r hr
  exact find?_dropDupsBy hr

/-- C4: when no row's `Name` matches the marker, the ExclusionSet is empty,
the anti-join is the identity, and the pipeline's output is exactly the input
deduplicated by (IP, HostName), first occurrence kept, input order
preserved. -/
theorem no_marker_identity (df : List Record)
    (h : ∀ r ∈ df, ninjaMask r = false) :
    hostsWithNinja df = [] ∧ dfNoNinja df = df ∧
    filterPipeline df = dropDupsBy key df [] := by
  have hfilter : df.filter ninjaMask = [] :=
    List.filter_eq_nil_iff.mpr (by intro a ha; simp [h a ha])
  have hhosts : hostsWithNinja df = [] := by
    rw [hostsWithNinja, hfilter]
    rfl
  have hnn : dfNoNinja df = df := by
    rw [dfNoNinja]
    refine List.filter_eq_self.mpr ?_
    intro a _
    simp [hhosts]
  exact ⟨hhosts, hnn, by rw [filterPipeline, hnn]⟩

/-- C4 witness: the hypothesis and conclusion at the concrete marker-free
table `[rA, rB]`. -/
theorem no_marker_identity_witness :
    hostsWithNinja [rA, rB] = [] ∧ dfNoNinja [rA, rB] = [rA, rB] ∧
    filterPipeline [rA, rB] = dropDupsBy key [rA, rB] [] :=
  no_marker_identity [rA, rB] (by decide)

/-- C6: if a required column (`Name`, `IP` or `HostName`) is absent from the
header, the pipeline stops with a `schemaError` naming a missing column, and
the run writes nothing and exits with a non-zero status: no partial output
exists. -/
theorem missing_column_schema_error (t : RawTable)
    (h : "Name" ∉ t.header ∨ "IP" ∉ t.header ∨ "HostName" ∉ t.header) :
    (∃ c, runPipeline t = .error (.schemaError c)) ∧
    (mainModel (.ok t)).written = none ∧ (mainModel (.ok t)).exitCode = 1 := by
  have hidx : ∀ c : String, c ∉ t.header → t.header.indexOf? c = none := by
    intro c hc
    apply List.indexOf?_eq_none_iff.mpr
    intro x hx
    simp only [beq_iff_eq]
    intro he
    exact hc (he ▸ hx)
  have herr : ∃ c, runPipeline t = .error (.schemaError c) := by
    rcases h with hN | hI | hH
    · exact ⟨"Name", by rw [runPipeline, hidx _ hN]⟩
    · cases hn : t.header.indexOf? "Name" with
      | none => exact ⟨"Name", by rw [runPipeline, hn]⟩
      | some ni => exact ⟨"IP", by rw [runPipeline, hn, hidx _ hI]⟩
    · cases hn : t.header.indexOf? "Name" with
      | none => exact ⟨"Name", by rw [runPipeline, hn]⟩
      | some ni =>
        cases hi : t.header.indexOf? "IP" with
        | none => exact ⟨"IP", by rw [runPipeline, hn, hi]⟩
        | some ii => exact ⟨"HostName", by rw [runPipeline, hn, hi, hidx _ hH]⟩
  rcases herr with ⟨c, hc⟩
  exact ⟨⟨c, hc⟩, by simp [mainModel, hc], by simp [mainModel, hc]⟩

/-- A header missing the `IP` column, used to instantiate C6. -/
def tMissingIP : RawTable := ⟨["Name", "HostName"], []⟩

/-- C6 witness: the theorem at the concrete header `["Name", "HostName"]`. -/
theorem missing_column_schema_error_witness :
    (∃ c, runPipeline tMissingIP = .error (.schemaError c)) ∧
    (mainModel (.ok tMissingIP)).written = none ∧
    (mainModel (.ok tMissingIP)).exitCode = 1 :=
  missing_column_schema_error tMissingIP (Or.inr (Or.inl (by decide)))

/-- C7: when `read_csv` fails (a `parseError`, e.g. the file does not decode
under cp1252), `main` prints the human-readable message, exits with the
non-zero status 1 and writes no output: the failure is terminal, with no
recovery. -/
theorem read_failure_parse_error :
    ∀ msg : String,
      mainModel (.error (.parseError msg)) =
        { exitCode := 1, written := none
          message := "Error reading CSV:\n" ++ msg } ∧
      (mainModel (.error (.parseError msg))).exitCode ≠ 0 ∧
      (mainModel (.error (.parseError msg))).written = none := by
  intro msg
  exact ⟨rfl, by simp [mainModel, errText], rfl⟩

/-- C8: the pipeline is a pure function of its input — two runs on the same
table give the same output — and it is moreover idempotent: running it on
its own output changes nothing. -/
theorem pipeline_deterministic_idempotent :
    ∀ df : List Record,
      filterPipeline df = filterPipeline df ∧
      filterPipeline (filterPipeline df) = filterPipeline df := by
  intro df
  refine ⟨rfl, ?_⟩
  have hmask : ∀ r ∈ filterPipeline df, ninjaMask r = false := by
    intro r hr
    rcases mem_of_mem_filterPipeline hr with ⟨hrdf, hkey⟩
    cases hm : ninjaMask r with
    | false => rfl
    | true => exact absurd (mem_hostsWithNinja.mpr ⟨r, hrdf, hm, rfl⟩) hkey
  have hfilter : (filterPipeline df).filter ninjaMask = [] :=
    List.filter_eq_nil_iff.mpr (by intro a ha; simp [hmask a ha])
  have hhosts : hostsWithNinja (filterPipeline df) = [] := by
    rw [hostsWithNinja, hfilter]
    rfl
  have hnn : dfNoNinja (filterPipeline df) = filterPipeline df := by
    rw [dfNoNinja]
    refine List.filter_eq_self.mpr ?_
    intro a _
    simp [hhosts]
  have hnodup : ((filterPipeline df).map key).Nodup :=
    nodup_map_dropDupsBy key (dfNoNinja df) []
  calc filterPipeline (filterPipeline df)
      = dropDupsBy key (dfNoNinja (filterPipeline df)) [] := rfl
    _ = dropDupsBy key (filterPipeline df) [] := by rw [hnn]
    _ = filterPipeline df :=
        dropDupsBy_eq_self hnodup (fun x _ => List.not_mem_nil _)

/-- The sequence of bindings of `main` (lines 192-200): every step builds a
new frame from the previous ones; the binding `df` is never reassigned and no
operation is in-place. `mainFrames` returns the value of `df` after the run
together with the written output. -/
def mainFrames (input : List Record) : List Record × List Record :=
  let df := input
  let ninjaHosts := hostsWithNinja df
  let noNinja := df.filter (fun r => !(decide (key r ∈ ninjaHosts)))
  let noNinjaUnique := dropDupsBy key noNinja []
  (df, noNinjaUnique)

/-- C9: after the run the input frame is unchanged — the value bound to `df`
at the end equals the input — and the only product is the new output table,
which is the pipeline's result. -/
theorem input_not_mutated :
    ∀ input : List Record,
      (mainFrames input).1 = input ∧
      (mainFrames input).2 = filterPipeline input := by
  intro input
  exact ⟨rfl, rfl⟩

/-- C10: missing key cells compare equal. A row whose `IP` is missing is
excluded whenever some marker row has an identically missing `IP` and the
same `HostName` (and symmetrically for `HostName`); and two output rows
whose key pairs are both identically missing are one and the same row, so
rows with wholly missing keys deduplicate to a single representative. -/
theorem null_keys_compare_equal :
    (∀ (df : List Record) (r n : Record),
        r ∈ df → n ∈ df → ninjaMask n = true →
        ((r.ip = none ∧ n.ip = none ∧ n.hostName = r.hostName) ∨
         (r.hostName = none ∧ n.hostName = none ∧ n.ip = r.ip)) →
        r ∉ filterPipeline df) ∧
    (∀ (df : List Record) (r r' : Record),
        r ∈ filterPipeline df → r' ∈ filterPipeline df →
        r.ip = none → r.hostName = none → r'.ip = none → r'.hostName = none →
        r = r') := by
  constructor
  · intro df r n hr hn hmask hkeys hout
    rcases mem_of_mem_filterPipeline hout with ⟨_, hkey⟩
    apply hkey
    apply mem_hostsWithNinja.mpr
    refine ⟨n, hn, hmask, ?_⟩
    rcases hkeys with ⟨h1, h2, h3⟩ | ⟨h1, h2, h3⟩ <;> simp [key, h1, h2, h3]
  · intro df r r' hr hr' hip hhost hip' hhost'
    have hnodup : ((filterPipeline df).map key).Nodup :=
      nodup_map_dropDupsBy key (dfNoNinja df) []
    have hkeq : key r = key r' := by simp [key, hip, hhost, hip', hhost']
    exact List.inj_on_of_nodup_map hnodup hr hr' hkeq

/-- A marker row with a missing `IP`. -/
def nNull : Record := ⟨some "NinjaRMMAgent", none, some "H", []⟩

/-- A marker-free row sharing `nNull`'s host with an identically missing
`IP`. -/
def rNull : Record := ⟨some "firefox.exe", none, some "H", []⟩

/-- A concrete instance of C10's exclusion clause: `rNull`'s missing `IP`
matches `nNull`'s missing `IP`, so `rNull` is excluded. -/
theorem null_keys_example : rNull ∉ filterPipeline [nNull, rNull] := by decide

end CSVNoNinja
